import Mathlib

/-!
Shallow embedding of the 3D reconstruction engine in `src/model.py`
(class `Model`: `initial_reconstruction`, the seed triangulation, and
`next_refinement_step`, one silhouette-consistency carving step).

Machine floating point is idealized as exact rational arithmetic (ℚ); the
numeric tolerance predicates keep the exact constants of the libraries the
source calls (`np.allclose` with rtol = 1e-5, atol = 1e-8, and raylib's
`Vector3Equals` with EPSILON = 1e-6).  Python `IndexError` (out-of-range
list access) is made explicit through `Except Err`.
-/

/-- 3D vector with rational coordinates (idealizing `rl.Vector3` /
`np.array` of length 3). -/
structure Vec3 where
  x : ℚ
  y : ℚ
  z : ℚ
deriving DecidableEq, Repr, Inhabited

def Vec3.add (a b : Vec3) : Vec3 := ⟨a.x + b.x, a.y + b.y, a.z + b.z⟩

def Vec3.sub (a b : Vec3) : Vec3 := ⟨a.x - b.x, a.y - b.y, a.z - b.z⟩

def Vec3.smul (t : ℚ) (a : Vec3) : Vec3 := ⟨t * a.x, t * a.y, t * a.z⟩

def Vec3.dot (a b : Vec3) : ℚ := a.x * b.x + a.y * b.y + a.z * b.z

def Vec3.zero : Vec3 := ⟨0, 0, 0⟩

/-- raylib `Vector3CrossProduct`, called as `rl.vector3_cross_product` at
`model.py:83`. -/
def vector3_cross_product (a b : Vec3) : Vec3 :=
  ⟨a.y * b.z - a.z * b.y, a.z * b.x - a.x * b.z, a.x * b.y - a.y * b.x⟩

/-- raylib `FloatEquals`: `|a - b| <= EPSILON * max(1, |a|, |b|)` with
`EPSILON = 0.000001`. -/
def floatEquals (a b : ℚ) : Bool :=
  |a - b| ≤ (1 / 1000000) * max 1 (max |a| |b|)

/-- raylib `Vector3Equals`, called as `rl.vector3_equals` at `model.py:154`:
componentwise `FloatEquals`. -/
def vector3_equals (a b : Vec3) : Bool :=
  floatEquals a.x b.x && floatEquals a.y b.y && floatEquals a.z b.z

/-- One component of `np.allclose` with the default tolerances:
`|a - b| <= atol + rtol * |b|`, `atol = 1e-8`, `rtol = 1e-5`. -/
def allclose1 (a b : ℚ) : Bool :=
  |a - b| ≤ 1 / 100000000 + (1 / 100000) * |b|

/-- `np.allclose` on 3-vectors (componentwise), as used at `model.py:111`. -/
def allclose (a b : Vec3) : Bool :=
  allclose1 a.x b.x && allclose1 a.y b.y && allclose1 a.z b.z

/-- Modelled from the spec: `utils.calculate_plane_d` (the file `utils.py`
is not part of the given sources).  Spec §4.1: given a point on a plane and
the plane's normal `(A,B,C)`, return `D` such that `A·x + B·y + C·z + D = 0`
holds for the point. -/
def calculate_plane_d (px py pz nx ny nz : ℚ) : ℚ :=
  -(nx * px + ny * py + nz * pz)

/-- Modelled from the spec: `utils.intersect_plane_line` (the file
`utils.py` is not part of the given sources).  Spec §4.1: the intersection
of the plane `Ax + By + Cz + D = 0` with the line through `line_point`
whose direction is the plane normal, computed as
`line_point - normal * ((normal·line_point + D) / |normal|²)`. -/
def intersect_plane_line (nx ny nz d px py pz : ℚ) : Vec3 :=
  let t := (nx * px + ny * py + nz * pz + d) / (nx * nx + ny * ny + nz * nz)
  ⟨px - nx * t, py - ny * t, pz - nz * t⟩

/-- Modelled from the spec: the `View` collaborator (the file `view.py` is
not part of the given sources).  Spec §3/§6 contract: an immutable camera
frame (`position`, orthonormal `vx`, `vy`, `vz`, with `vy` the optical
axis) plus the silhouette boundary `vertices` already mapped into world
space on the view's plane.  Only the fields read by `model.py` matter
here. -/
structure View where
  position : Vec3
  vx : Vec3
  vy : Vec3
  vz : Vec3
  vertices : List Vec3
deriving DecidableEq, Repr, Inhabited

/-- The reconstruction engine state (`Model.views`, `Model.vertices`,
`Model.next_view` as set up in `Model.__init__`, `model.py:51-53`). -/
structure Model where
  views : List View
  vertices : List Vec3
  next_view : ℕ
deriving DecidableEq, Repr, Inhabited

/-- Python exceptions that can escape the two engine operations. -/
inductive Err where
  | indexError
deriving DecidableEq, Repr

/-- `np.linalg.lstsq` (`model.py:107`) on the 3×2 system
`[d0 | -d1]·[t, s]ᵀ = b`: the minimum-norm least-squares solution,
idealized over ℚ.  When the normal-equation determinant is non-zero the
unique least-squares solution is returned; in the rank-deficient case
(parallel rays) the SVD-based minimum-norm solution equals
`Aᵀb / (|d0|² + |d1|²)`; for a zero matrix the solution is `(0, 0)`.
`lstsq` returns without raising in all these cases. -/
def lstsq2 (d0 d1 b : Vec3) : ℚ × ℚ :=
  let a11 := Vec3.dot d0 d0
  let a12 := -(Vec3.dot d0 d1)
  let a22 := Vec3.dot d1 d1
  let r1 := Vec3.dot d0 b
  let r2 := -(Vec3.dot d1 b)
  let det := a11 * a22 - a12 * a12
  if det ≠ 0 then
    ((a22 * r1 - a12 * r2) / det, (a11 * r2 - a12 * r1) / det)
  else if a11 + a22 ≠ 0 then
    (r1 / (a11 + a22), r2 / (a11 + a22))
  else
    (0, 0)

/-- Body of the inner triangulation loop (`model.py:102-116`): solve the
two-line least-squares system, form the two closest points, and accept the
first one iff `np.allclose` holds for the pair. -/
def triangulate (d0 d1 p0 p1 : Vec3) : Option Vec3 :=
  let ts := lstsq2 d0 d1 (Vec3.sub p1 p0)
  let p_inter1 := Vec3.add p0 (Vec3.smul ts.1 d0)
  let p_inter2 := Vec3.add p1 (Vec3.smul ts.2 d1)
  if allclose p_inter1 p_inter2 then some p_inter1 else none

/-- The double loop of `model.py:97-116`: for every pair `(p0, p1)` of
boundary vertices of the first two views, insert the triangulated point (if
accepted) at the front of the accumulating vertex list
(`self.vertices.insert(0, ...)`). -/
def seedVertices (view0 view1 : View) (init : List Vec3) : List Vec3 :=
  view0.vertices.foldl (fun acc p0 =>
    view1.vertices.foldl (fun acc2 p1 =>
      match triangulate view0.vy view1.vy p0 p1 with
      | some q => q :: acc2
      | none => acc2) acc) init

/-- `Model.initial_reconstruction` (`model.py:80-116`).  Reads `views[0]`
and `views[1]` (→ `IndexError` when fewer than two views exist); returns
unchanged when the two optical axes have zero cross product; otherwise sets
`next_view = 2` and runs the pairwise triangulation loop. -/
def initial_reconstruction (m : Model) : Except Err Model :=
  match m.views with
  | view0 :: view1 :: _ =>
    let c := vector3_cross_product view0.vy view1.vy
    if c.x = 0 ∧ c.y = 0 ∧ c.z = 0 then
      Except.ok m
    else
      Except.ok { m with next_view := 2,
                         vertices := seedVertices view0 view1 m.vertices }
  | _ => Except.error Err.indexError

/-- Projection of `p` onto the plane of `view` along the optical axis
`view.vy`, exactly as computed inside the carving loop
(`model.py:129-150`): the plane passes through `view.vertices[0]` with
normal `view.vy`. -/
def projectToView (view : View) (p : Vec3) : Vec3 :=
  let plane_point := view.vertices.headD default
  intersect_plane_line view.vy.x view.vy.y view.vy.z
    (calculate_plane_d plane_point.x plane_point.y plane_point.z
      view.vy.x view.vy.y view.vy.z)
    p.x p.y p.z

/-- The visibility test of `model.py:154`: `p` is kept iff its projection
onto the view plane equals (raylib `Vector3Equals`) some silhouette
vertex of the view. -/
def viewKeeps (view : View) (p : Vec3) : Bool :=
  view.vertices.any (fun view_point => vector3_equals (projectToView view p) view_point)

/-- Python `list.remove` (`model.py:158`): delete the first occurrence of a
value (no occurrence cannot arise at that call site). -/
def removeFirst : List Vec3 → Vec3 → List Vec3
  | [], _ => []
  | x :: xs, v => if x = v then xs else x :: removeFirst xs v

/-- `Model.next_refinement_step` (`model.py:119-161`).  Terminal when
`next_view >= len(views)` (returns `False`, no mutation).  Otherwise reads
`views[next_view].vertices[0]` (→ `IndexError` on an empty silhouette),
marks every candidate point whose projection matches no silhouette vertex
(`points_to_remove.insert(0, point)` builds the marked list in reverse scan
order), removes the marked points in a batch after the scan, increments the
cursor and returns `True`. -/
def next_refinement_step (m : Model) : Except Err (Model × Bool) :=
  if m.next_view < m.views.length then
    let view := m.views.getD m.next_view default
    if view.vertices.isEmpty then
      Except.error Err.indexError
    else
      let points_to_remove := (m.vertices.filter (fun p => !viewKeeps view p)).reverse
      Except.ok ({ m with vertices := points_to_remove.foldl removeFirst m.vertices,
                          next_view := m.next_view + 1 }, true)
  else
    Except.ok (m, false)

/-- Run `k` carving steps, requiring every step to succeed and to return
`True` (a "successful carving step"). -/
def refineSteps : ℕ → Model → Option Model
  | 0, m => some m
  | k + 1, m =>
    match next_refinement_step m with
    | Except.ok (m1, true) => refineSteps k m1
    | _ => none

/-- Run `k` calls of the carving step, continuing through `False` returns
(which leave the state unchanged) and aborting on an exception. -/
def callRefine : ℕ → Model → Option Model
  | 0, m => some m
  | k + 1, m =>
    match next_refinement_step m with
    | Except.ok (m1, _) => callRefine k m1
    | Except.error _ => none

/-! ### Concrete test fixtures -/

def origin : Vec3 := ⟨0, 0, 0⟩

/-- View looking along the x-axis whose silhouette boundary is the single
world point at the origin. -/
def viewX : View := ⟨⟨2, 0, 0⟩, ⟨0, 0, 1⟩, ⟨1, 0, 0⟩, ⟨0, 1, 0⟩, [origin]⟩

/-- View looking along the y-axis, silhouette boundary at the origin. -/
def viewY : View := ⟨⟨0, 2, 0⟩, ⟨1, 0, 0⟩, ⟨0, 1, 0⟩, ⟨0, 0, 1⟩, [origin]⟩

/-- View looking along the z-axis, silhouette boundary at the origin. -/
def viewZ : View := ⟨⟨0, 0, 2⟩, ⟨1, 0, 0⟩, ⟨0, 0, 1⟩, ⟨0, 1, 0⟩, [origin]⟩

/-- A freshly constructed 3-view engine; both seeding and one carving step
succeed on it, reconstructing the single point at the origin. -/
def mW : Model := ⟨[viewX, viewY, viewZ], [], 0⟩

/-- `mW` after a successful seed. -/
def mW1 : Model := ⟨[viewX, viewY, viewZ], [origin], 2⟩

/-- `mW1` after one successful carving step. -/
def mW2 : Model := ⟨[viewX, viewY, viewZ], [origin], 3⟩

/-- An engine whose cursor has consumed all views (terminal state). -/
def mTerm : Model := ⟨[viewX], [origin], 1⟩

/-- A fresh engine whose first two views have identical (hence parallel)
optical axes. -/
def mPar : Model := ⟨[viewX, viewX], [], 0⟩

/-- A fresh engine holding a single view. -/
def mOne : Model := ⟨[viewX], [], 0⟩

/-- An engine with an empty candidate cloud and one unconsumed view whose
silhouette is non-empty. -/
def mEmptyCloud : Model := ⟨[viewX], [], 0⟩

/-- The seeded vertex of the C1 counterexample: its y and z coordinates
sit 1.6e-5 and 1.2e-5 away from the view-1 silhouette plane point. -/
def pcex : Vec3 := ⟨0, 2999984 / 1000000, 4000012 / 1000000⟩

/-- Counterexample view 0: optical axis `(1,0,0)`, silhouette `[pcex]`. -/
def v0cex : View := ⟨⟨5, 0, 0⟩, ⟨0, 0, 1⟩, ⟨1, 0, 0⟩, ⟨0, 1, 0⟩, [pcex]⟩

/-- Counterexample view 1: unit optical axis `(0, 3/5, 4/5)`, silhouette
boundary the single point at the origin. -/
def v1cex : View := ⟨⟨0, 3, 4⟩, ⟨1, 0, 0⟩, ⟨0, 3 / 5, 4 / 5⟩, ⟨0, -4 / 5, 3 / 5⟩, [origin]⟩

/-- Fresh engine for the C1 counterexample: non-parallel axes, one
silhouette vertex per view. -/
def mCex : Model := ⟨[v0cex, v1cex], [], 0⟩

/-- `mCex` after a successful seed: the single pair is accepted by
`np.allclose` (the residual is within its relative tolerance of the far
point `(0,3,4)`), so `pcex` enters the cloud. -/
def mCexS : Model := ⟨[v0cex, v1cex], [pcex], 2⟩

/-- View with silhouette vertex `(0,0,5)`: paired with `viewX`'s origin
vertex it makes the closeness check reject, so seeding accepts no pair. -/
def v1far : View := ⟨⟨0, 2, 0⟩, ⟨1, 0, 0⟩, ⟨0, 1, 0⟩, ⟨0, 0, 1⟩, [⟨0, 0, 5⟩]⟩

/-- A view whose silhouette boundary is empty. -/
def vEmptySil : View := ⟨⟨0, 0, 2⟩, ⟨1, 0, 0⟩, ⟨0, 0, 1⟩, ⟨0, 1, 0⟩, []⟩

/-- 3-view engine whose seed succeeds but accepts no pair, and whose third
view has an empty silhouette. -/
def mC9 : Model := ⟨[viewX, v1far, vEmptySil], [], 0⟩

/-- `mC9` after its successful (but empty) seed. -/
def mC9S : Model := ⟨[viewX, v1far, vEmptySil], [], 2⟩

/-- Non-terminal engine whose filter view has an empty silhouette but whose
candidate cloud is non-empty. -/
def mC8 : Model := ⟨[vEmptySil], [origin], 0⟩

/-- Non-terminal engine whose filter view has an empty silhouette and whose
candidate cloud is empty as well. -/
def mC10 : Model := ⟨[vEmptySil], [], 0⟩

/-! ### Helper lemmas -/

theorem vec3_components_zero_iff (v : Vec3) :
    v.x = 0 ∧ v.y = 0 ∧ v.z = 0 ↔ v = Vec3.zero := by
  cases v
  simp [Vec3.zero]

theorem count_removeFirst_self (l : List Vec3) (v : Vec3) :
    (removeFirst l v).count v = l.count v - 1 := by
  induction l with
  | nil => simp [removeFirst]
  | cons x xs ih =>
    by_cases h : x = v
    · subst h
      simp [removeFirst]
    · have hvx : v ≠ x := fun hq => h hq.symm
      simp [removeFirst, h, List.count_cons_of_ne hvx, ih]

theorem count_removeFirst_ne (l : List Vec3) (v w : Vec3) (h : v ≠ w) :
    (removeFirst l w).count v = l.count v := by
  induction l with
  | nil => simp [removeFirst]
  | cons x xs ih =>
    by_cases hx : x = w
    · subst hx
      simp [removeFirst, List.count_cons_of_ne h]
    · simp [removeFirst, hx, List.count_cons, ih]

theorem count_foldl_removeFirst (r : List Vec3) (l : List Vec3) (v : Vec3) :
    (r.foldl removeFirst l).count v = l.count v - r.count v := by
  induction r generalizing l with
  | nil => simp
  | cons w r ih =>
    simp only [List.foldl_cons]
    rw [ih]
    by_cases h : v = w
    · subst h
      rw [count_removeFirst_self, List.count_cons_self]
      omega
    · rw [count_removeFirst_ne _ _ _ h, List.count_cons_of_ne h]

theorem filter_removeFirst (keep : Vec3 → Bool) (l : List Vec3) (v : Vec3)
    (hv : keep v = false) :
    (removeFirst l v).filter keep = l.filter keep := by
  induction l with
  | nil => rfl
  | cons x xs ih =>
    by_cases h : x = v
    · subst h
      simp [removeFirst, List.filter_cons, hv]
    · simp only [removeFirst, if_neg h, List.filter_cons, ih]

theorem filter_foldl_removeFirst (keep : Vec3 → Bool) (r l : List Vec3)
    (hr : ∀ v ∈ r, keep v = false) :
    (r.foldl removeFirst l).filter keep = l.filter keep := by
  induction r generalizing l with
  | nil => rfl
  | cons w r ih =>
    simp only [List.foldl_cons]
    rw [ih (removeFirst l w) (fun v hv => hr v (List.mem_cons_of_mem _ hv)),
      filter_removeFirst keep l w (hr w (List.mem_cons_self _ _))]

/-- Batch removal of the marked points is the same as filtering by the keep
predicate: `model.py:152-158` keeps exactly the points that pass the
visibility test, in order. -/
theorem foldl_removeFirst_marked (keep : Vec3 → Bool) (l : List Vec3) :
    ((l.filter (fun p => !keep p)).reverse).foldl removeFirst l = l.filter keep := by
  have hbad : ∀ v ∈ (l.filter (fun p => !keep p)).reverse, keep v = false := by
    intro v hv
    rw [List.mem_reverse] at hv
    have := List.of_mem_filter hv
    simpa using this
  have hfil := filter_foldl_removeFirst keep ((l.filter (fun p => !keep p)).reverse) l hbad
  have hall : ∀ v ∈ ((l.filter (fun p => !keep p)).reverse).foldl removeFirst l,
      keep v = true := by
    intro v hv
    by_contra hfalse
    have hkf : keep v = false := by
      cases hkv : keep v
      · rfl
      · exact absurd hkv hfalse
    have hc : (((l.filter (fun p => !keep p)).reverse).foldl removeFirst l).count v = 0 := by
      rw [count_foldl_removeFirst, List.count_reverse,
        List.count_filter (by simp [hkf])]
      omega
    have := List.count_pos_iff.mpr hv
    omega
  calc ((l.filter (fun p => !keep p)).reverse).foldl removeFirst l
      = (((l.filter (fun p => !keep p)).reverse).foldl removeFirst l).filter keep :=
        (List.filter_eq_self.mpr hall).symm
    _ = l.filter keep := hfil

/-- Non-terminal carving step with a non-empty filter silhouette: the
result keeps exactly the points passing the visibility test, bumps the
cursor, and returns `true`. -/
theorem next_refinement_step_of_lt (m : Model) (h : m.next_view < m.views.length)
    (hne : (m.views.getD m.next_view default).vertices ≠ []) :
    next_refinement_step m = Except.ok
      ({ m with vertices := m.vertices.filter (viewKeeps (m.views.getD m.next_view default)),
                next_view := m.next_view + 1 }, true) := by
  have hemp : (m.views.getD m.next_view default).vertices.isEmpty = false := by
    cases hvv : (m.views.getD m.next_view default).vertices
    · exact absurd hvv hne
    · rfl
  simp only [next_refinement_step, if_pos h, hemp, Bool.false_eq_true, if_false,
    foldl_removeFirst_marked]

/-- Terminal carving step: returns `false` and leaves the state intact. -/
theorem next_refinement_step_of_ge (m : Model) (h : m.views.length ≤ m.next_view) :
    next_refinement_step m = Except.ok (m, false) := by
  simp only [next_refinement_step, if_neg (by omega : ¬ m.next_view < m.views.length)]

/-- Non-terminal carving step with an empty filter silhouette: the read of
`view.vertices[0]` raises `IndexError`. -/
theorem next_refinement_step_of_empty_sil (m : Model) (h : m.next_view < m.views.length)
    (he : (m.views.getD m.next_view default).vertices = []) :
    next_refinement_step m = Except.error Err.indexError := by
  simp only [next_refinement_step, if_pos h, he, List.isEmpty_nil, if_true]

/-- Inversion: a step that returned `true` was a non-terminal filtering
step. -/
theorem step_true_inversion (m m1 : Model)
    (h : next_refinement_step m = Except.ok (m1, true)) :
    m.next_view < m.views.length ∧
    (m.views.getD m.next_view default).vertices ≠ [] ∧
    m1 = ({ m with
            vertices := m.vertices.filter (viewKeeps (m.views.getD m.next_view default)),
            next_view := m.next_view + 1 }) := by
  by_cases hlt : m.next_view < m.views.length
  · by_cases hemp : (m.views.getD m.next_view default).vertices = []
    · rw [next_refinement_step_of_empty_sil m hlt hemp] at h
      exact absurd h (by simp)
    · rw [next_refinement_step_of_lt m hlt hemp] at h
      have := (Except.ok.injEq _ _).mp h
      exact ⟨hlt, hemp, ((Prod.mk.injEq _ _ _ _).mp this).1.symm⟩
  · rw [next_refinement_step_of_ge m (by omega)] at h
    have := (Except.ok.injEq _ _).mp h
    exact absurd ((Prod.mk.injEq _ _ _ _).mp this).2 (by simp)

/-- Any successfully returning step can only shrink the candidate cloud. -/
theorem step_length_le (m m1 : Model) (b : Bool)
    (h : next_refinement_step m = Except.ok (m1, b)) :
    m1.vertices.length ≤ m.vertices.length := by
  cases b with
  | false =>
    by_cases hlt : m.next_view < m.views.length
    · by_cases hemp : (m.views.getD m.next_view default).vertices = []
      · rw [next_refinement_step_of_empty_sil m hlt hemp] at h
        exact absurd h (by simp)
      · rw [next_refinement_step_of_lt m hlt hemp] at h
        have := (Except.ok.injEq _ _).mp h
        exact absurd ((Prod.mk.injEq _ _ _ _).mp this).2 (by simp)
    · rw [next_refinement_step_of_ge m (by omega)] at h
      have := (Except.ok.injEq _ _).mp h
      rw [← ((Prod.mk.injEq _ _ _ _).mp this).1]
  | true =>
    obtain ⟨_, _, hm1⟩ := step_true_inversion m m1 h
    rw [hm1]
    exact List.length_filter_le _ _

/-- State invariant carried along `k` successful carving steps: the views
are untouched, the cursor advances by exactly `k`, and every surviving
point was already present and passes the visibility test of every consumed
view. -/
theorem refineSteps_inv (k : ℕ) (m m2 : Model) (h : refineSteps k m = some m2) :
    m2.views = m.views ∧ m2.next_view = m.next_view + k ∧
    ∀ p ∈ m2.vertices, p ∈ m.vertices ∧
      ∀ i, i < k → viewKeeps (m.views.getD (m.next_view + i) default) p = true := by
  induction k generalizing m with
  | zero =>
    simp only [refineSteps, Option.some.injEq] at h
    subst h
    exact ⟨rfl, by omega, fun p hp => ⟨hp, fun i hi => absurd hi (by omega)⟩⟩
  | succ k ih =>
    rw [refineSteps] at h
    cases hstep : next_refinement_step m with
    | error e => rw [hstep] at h; simp at h
    | ok mb =>
      obtain ⟨m1, b⟩ := mb
      cases b with
      | false => rw [hstep] at h; simp at h
      | true =>
        rw [hstep] at h
        obtain ⟨hlt, hne, hm1⟩ := step_true_inversion m m1 hstep
        obtain ⟨hviews, hnv, hpts⟩ := ih m1 h
        subst hm1
        have hnv2 : m2.next_view = m.next_view + 1 + k := hnv
        refine ⟨hviews, by omega, ?_⟩
        intro p hp
        obtain ⟨hpm1, hkeep⟩ := hpts p hp
        have hpm1f := List.mem_filter.mp hpm1
        refine ⟨hpm1f.1, ?_⟩
        intro i hi
        cases i with
        | zero => exact hpm1f.2
        | succ j =>
          have hj : viewKeeps (m.views.getD (m.next_view + 1 + j) default) p = true :=
            hkeep j (by omega)
          have harith : m.next_view + 1 + j = m.next_view + (j + 1) := by omega
          rw [harith] at hj
          exact hj

/-- Successful (non-degenerate) seed: with at least two views and a
non-zero cross product of the optical axes, `initial_reconstruction` sets
`next_view = 2` and replaces the cloud by the triangulated pairs. -/
theorem initial_reconstruction_of_cross_ne (m : Model) (v0 v1 : View) (rest : List View)
    (hv : m.views = v0 :: v1 :: rest)
    (hc : vector3_cross_product v0.vy v1.vy ≠ Vec3.zero) :
    initial_reconstruction m = Except.ok
      ({ m with next_view := 2, vertices := seedVertices v0 v1 m.vertices }) := by
  have hcc : ¬((vector3_cross_product v0.vy v1.vy).x = 0 ∧
      (vector3_cross_product v0.vy v1.vy).y = 0 ∧
      (vector3_cross_product v0.vy v1.vy).z = 0) := fun hh =>
    hc ((vec3_components_zero_iff _).mp hh)
  unfold initial_reconstruction
  rw [hv]
  simp only [if_neg hcc]

/-- Degenerate seed: a zero cross product of the two optical axes makes
`initial_reconstruction` return with no state change at all. -/
theorem initial_reconstruction_of_cross_zero (m : Model) (v0 v1 : View) (rest : List View)
    (hv : m.views = v0 :: v1 :: rest)
    (hc : vector3_cross_product v0.vy v1.vy = Vec3.zero) :
    initial_reconstruction m = Except.ok m := by
  have hcc : (vector3_cross_product v0.vy v1.vy).x = 0 ∧
      (vector3_cross_product v0.vy v1.vy).y = 0 ∧
      (vector3_cross_product v0.vy v1.vy).z = 0 := (vec3_components_zero_iff _).mpr hc
  unfold initial_reconstruction
  rw [hv]
  simp only [if_pos hcc]

theorem mem_foldl_option_cons (f : Vec3 → Option Vec3) (l acc : List Vec3) (q : Vec3) :
    (q ∈ l.foldl (fun a p => match f p with | some r => r :: a | none => a) acc) ↔
      ((∃ p, p ∈ l ∧ f p = some q) ∨ q ∈ acc) := by
  induction l generalizing acc with
  | nil => simp
  | cons x xs ih =>
    simp only [List.foldl_cons]
    rw [ih]
    cases hx : f x with
    | none =>
      dsimp only
      constructor
      · rintro (⟨p, hp, hfp⟩ | hacc)
        · exact Or.inl ⟨p, List.mem_cons_of_mem _ hp, hfp⟩
        · exact Or.inr hacc
      · rintro (⟨p, hp, hfp⟩ | hacc)
        · rcases List.mem_cons.mp hp with rfl | hp2
          · rw [hx] at hfp
            exact absurd hfp (by simp)
          · exact Or.inl ⟨p, hp2, hfp⟩
        · exact Or.inr hacc
    | some r =>
      dsimp only
      constructor
      · rintro (⟨p, hp, hfp⟩ | hacc)
        · exact Or.inl ⟨p, List.mem_cons_of_mem _ hp, hfp⟩
        · rcases List.mem_cons.mp hacc with rfl | h2
          · exact Or.inl ⟨x, List.mem_cons_self _ _, hx⟩
          · exact Or.inr h2
      · rintro (⟨p, hp, hfp⟩ | hacc)
        · rcases List.mem_cons.mp hp with rfl | hp2
          · rw [hx] at hfp
            injection hfp with hq
            exact Or.inr (hq ▸ List.mem_cons_self _ _)
          · exact Or.inl ⟨p, hp2, hfp⟩
        · exact Or.inr (List.mem_cons_of_mem _ hacc)

theorem mem_seed_outer (d0 d1 : Vec3) (l0 l1 init : List Vec3) (q : Vec3) :
    (q ∈ l0.foldl (fun acc p0 => l1.foldl (fun acc2 p1 =>
        match triangulate d0 d1 p0 p1 with | some r => r :: acc2 | none => acc2) acc) init) ↔
      ((∃ p0, p0 ∈ l0 ∧ ∃ p1, p1 ∈ l1 ∧ triangulate d0 d1 p0 p1 = some q) ∨ q ∈ init) := by
  induction l0 generalizing init with
  | nil => simp
  | cons x xs ih =>
    simp only [List.foldl_cons]
    rw [ih, mem_foldl_option_cons (triangulate d0 d1 x) l1 init q]
    constructor
    · rintro (⟨p0, hp0, p1, hp1, htri⟩ | (⟨p1, hp1, htri⟩ | hacc))
      · exact Or.inl ⟨p0, List.mem_cons_of_mem _ hp0, p1, hp1, htri⟩
      · exact Or.inl ⟨x, List.mem_cons_self _ _, p1, hp1, htri⟩
      · exact Or.inr hacc
    · rintro (⟨p0, hp0, p1, hp1, htri⟩ | hacc)
      · rcases List.mem_cons.mp hp0 with rfl | hp02
        · exact Or.inr (Or.inl ⟨p1, hp1, htri⟩)
        · exact Or.inl ⟨p0, hp02, p1, hp1, htri⟩
      · exact Or.inr (Or.inr hacc)

/-- Membership in the seeded cloud: exactly the accepted triangulated
points of vertex pairs (plus whatever was in the cloud before). -/
theorem mem_seedVertices (v0 v1 : View) (init : List Vec3) (q : Vec3) :
    (q ∈ seedVertices v0 v1 init) ↔
      ((∃ p0, p0 ∈ v0.vertices ∧ ∃ p1, p1 ∈ v1.vertices ∧
        triangulate v0.vy v1.vy p0 p1 = some q) ∨ q ∈ init) := by
  unfold seedVertices
  exact mem_seed_outer v0.vy v1.vy v0.vertices v1.vertices init q

/-- `triangulate` accepts and returns exactly the first closest point, and
only when `np.allclose` holds for the two closest points. -/
theorem triangulate_eq_some_iff (d0 d1 p0 p1 q : Vec3) :
    triangulate d0 d1 p0 p1 = some q ↔
      (allclose (Vec3.add p0 (Vec3.smul (lstsq2 d0 d1 (Vec3.sub p1 p0)).1 d0))
          (Vec3.add p1 (Vec3.smul (lstsq2 d0 d1 (Vec3.sub p1 p0)).2 d1)) = true ∧
        q = Vec3.add p0 (Vec3.smul (lstsq2 d0 d1 (Vec3.sub p1 p0)).1 d0)) := by
  simp only [triangulate]
  by_cases hcl : allclose (Vec3.add p0 (Vec3.smul (lstsq2 d0 d1 (Vec3.sub p1 p0)).1 d0))
      (Vec3.add p1 (Vec3.smul (lstsq2 d0 d1 (Vec3.sub p1 p0)).2 d1)) = true
  · rw [if_pos hcl]
    simp only [Option.some.injEq, hcl, true_and]
    exact eq_comm
  · rw [if_neg hcl]
    simp [hcl]

/-- A point accepted during seeding lies on the ray `p0 + t·d0` through
its first-view boundary vertex. -/
theorem triangulate_some_form (d0 d1 p0 p1 q : Vec3)
    (h : triangulate d0 d1 p0 p1 = some q) :
    q = Vec3.add p0 (Vec3.smul (lstsq2 d0 d1 (Vec3.sub p1 p0)).1 d0) :=
  ((triangulate_eq_some_iff d0 d1 p0 p1 q).mp h).2

/-- Algebra of the carving projection: a point of the form `p0 + t·n`
(with `n` the plane normal) projects back to exactly `p0`, provided `p0`
lies on the plane through `h0` with normal `n` and `n` is not the zero
vector. -/
theorem project_on_plane (n h0 p0 : Vec3) (t : ℚ) (hn : Vec3.dot n n ≠ 0)
    (hp : Vec3.dot n p0 = Vec3.dot n h0) :
    intersect_plane_line n.x n.y n.z
      (calculate_plane_d h0.x h0.y h0.z n.x n.y n.z)
      (Vec3.add p0 (Vec3.smul t n)).x (Vec3.add p0 (Vec3.smul t n)).y
      (Vec3.add p0 (Vec3.smul t n)).z = p0 := by
  obtain ⟨nx, ny, nz⟩ := n
  obtain ⟨hx, hy, hz⟩ := h0
  obtain ⟨px, py, pz⟩ := p0
  unfold Vec3.dot at hn hp
  simp only at hn hp
  unfold Vec3.add Vec3.smul intersect_plane_line calculate_plane_d
  simp only
  have hkey : nx * (px + t * nx) + ny * (py + t * ny) + nz * (pz + t * nz) +
      -(nx * hx + ny * hy + nz * hz) = t * (nx * nx + ny * ny + nz * nz) := by
    linear_combination hp
  rw [hkey, mul_div_assoc, div_self hn, mul_one]
  simp only [Vec3.mk.injEq]
  refine ⟨by ring, by ring, by ring⟩

theorem callRefine_succ (k : ℕ) (m : Model) :
    callRefine (k + 1) m = (callRefine k m).bind (fun m1 =>
      match next_refinement_step m1 with
      | Except.ok (m2, _) => some m2
      | Except.error _ => none) := by
  induction k generalizing m with
  | zero =>
    cases hstep : next_refinement_step m with
    | error e => simp [callRefine, hstep]
    | ok p =>
      obtain ⟨m1, b⟩ := p
      simp [callRefine, hstep]
  | succ k ih =>
    cases hstep : next_refinement_step m with
    | error e => simp [callRefine, hstep]
    | ok p =>
      obtain ⟨m1, b⟩ := p
      have hl : callRefine (k + 1 + 1) m = callRefine (k + 1) m1 := by
        simp [callRefine, hstep]
      have hr : callRefine (k + 1) m = callRefine k m1 := by
        simp [callRefine, hstep]
      rw [hl, hr, ih m1]

/-! ### Claim theorems -/

/-- C1 (counterexample): after a successful, non-degenerate seed and `k = 0`
successful carving steps, the point `pcex` remains in the cloud, yet its
projection along the optical axis of view 1 onto that view's plane matches
no vertex of view 1's silhouette boundary — neither under raylib
`Vector3Equals` (the carving equality primitive) nor under `np.allclose`
(the seeding one).  So the claimed invariant fails for view 1. -/
theorem claim1_cex :
    vector3_cross_product v0cex.vy v1cex.vy ≠ Vec3.zero ∧
    initial_reconstruction mCex = Except.ok mCexS ∧
    refineSteps 0 mCexS = some mCexS ∧
    pcex ∈ mCexS.vertices ∧
    mCex.views.getD 1 default = v1cex ∧
    viewKeeps v1cex pcex = false ∧
    (v1cex.vertices.any fun vp => allclose (projectToView v1cex pcex) vp) = false := by
  refine ⟨?_, ?_, rfl, ?_, rfl, ?_, ?_⟩
  · norm_num [vector3_cross_product, Vec3.zero, v0cex, v1cex, Vec3.mk.injEq]
  · rw [initial_reconstruction_of_cross_ne mCex v0cex v1cex [] rfl
      (by norm_num [vector3_cross_product, Vec3.zero, v0cex, v1cex, Vec3.mk.injEq])]
    norm_num [seedVertices, triangulate, lstsq2, Vec3.dot, Vec3.sub, Vec3.add, Vec3.smul,
      allclose, allclose1, v0cex, v1cex, origin, pcex, mCex, mCexS,
      abs_eq_max_neg, sup_eq_max, max_def]
  · norm_num [mCexS]
  · norm_num [viewKeeps, projectToView, intersect_plane_line, calculate_plane_d,
      vector3_equals, floatEquals, v1cex, pcex, origin,
      abs_eq_max_neg, sup_eq_max, max_def]
  · norm_num [projectToView, intersect_plane_line, calculate_plane_d,
      allclose, allclose1, v1cex, pcex, origin,
      abs_eq_max_neg, sup_eq_max, max_def]

/-- C1 (amended): after a successful seed (at least two views, non-parallel
optical axes, fresh empty cloud) followed by `k` successful carving steps,
every surviving point projects along view 0's optical axis onto exactly a
vertex of view 0's silhouette (given the View-contract facts that view 0's
boundary vertices are coplanar with normal `vy` and `vy` is non-zero), and
its projection onto each view consumed by carving (indices `2 ≤ j < 2+k`)
equals some vertex of that view's silhouette under `Vector3Equals`.  The
analogous property for view 1 does not hold in general (see the
counterexample). -/
theorem claim1 (m m1 m2 : Model) (v0 v1 : View) (rest : List View) (k : ℕ)
    (hv : m.views = v0 :: v1 :: rest)
    (hinit : m.vertices = [])
    (hcross : vector3_cross_product v0.vy v1.vy ≠ Vec3.zero)
    (hn0 : Vec3.dot v0.vy v0.vy ≠ 0)
    (hplane0 : ∀ q, q ∈ v0.vertices →
      Vec3.dot v0.vy q = Vec3.dot v0.vy (v0.vertices.headD default))
    (hseed : initial_reconstruction m = Except.ok m1)
    (hsteps : refineSteps k m1 = some m2) :
    ∀ p, p ∈ m2.vertices →
      (projectToView v0 p ∈ v0.vertices ∧
       ∀ i, i < k → viewKeeps (m.views.getD (2 + i) default) p = true) := by
  rw [initial_reconstruction_of_cross_ne m v0 v1 rest hv hcross] at hseed
  have hm1 : ({ m with next_view := 2, vertices := seedVertices v0 v1 m.vertices } : Model)
      = m1 := (Except.ok.injEq _ _).mp hseed
  obtain ⟨hviews, hnv, hpts⟩ := refineSteps_inv k m1 m2 hsteps
  intro p hp
  obtain ⟨hpm1, hkeep⟩ := hpts p hp
  rw [← hm1] at hpm1
  have hpseed : p ∈ seedVertices v0 v1 m.vertices := hpm1
  rcases (mem_seedVertices v0 v1 m.vertices p).mp hpseed with ⟨p0, hp0, p1, hp1, htri⟩ | hin
  · constructor
    · have hform := triangulate_some_form v0.vy v1.vy p0 p1 p htri
      rw [hform]
      have hproj := project_on_plane v0.vy (v0.vertices.headD default) p0
        ((lstsq2 v0.vy v1.vy (Vec3.sub p1 p0)).1) hn0 (hplane0 p0 hp0)
      show intersect_plane_line v0.vy.x v0.vy.y v0.vy.z
        (calculate_plane_d (v0.vertices.headD default).x (v0.vertices.headD default).y
          (v0.vertices.headD default).z v0.vy.x v0.vy.y v0.vy.z) _ _ _ ∈ v0.vertices
      rw [hproj]
      exact hp0
    · intro i hi
      have hk := hkeep i hi
      rw [← hm1] at hk
      exact hk
  · rw [hinit] at hin
    exact absurd hin (List.not_mem_nil p)

/-- C1 (witness): on the concrete 3-view engine `mW`, seed plus one carving
step succeed and the amended invariant holds for the surviving point. -/
theorem claim1_witness :
    projectToView viewX origin ∈ viewX.vertices ∧
    viewKeeps (mW.views.getD (2 + 0) default) origin = true := by
  have h := claim1 mW mW1 mW2 viewX viewY [viewZ] 1 rfl rfl
    (by norm_num [vector3_cross_product, Vec3.zero, viewX, viewY, Vec3.mk.injEq])
    (by norm_num [Vec3.dot, viewX])
    (by intro q hq; rw [List.mem_singleton.mp hq]; rfl)
    (by
      rw [initial_reconstruction_of_cross_ne mW viewX viewY [viewZ] rfl
        (by norm_num [vector3_cross_product, Vec3.zero, viewX, viewY, Vec3.mk.injEq])]
      norm_num [seedVertices, triangulate, lstsq2, Vec3.dot, Vec3.sub, Vec3.add, Vec3.smul,
        allclose, allclose1, viewX, viewY, origin, mW, mW1])
    (by
      rw [refineSteps, next_refinement_step_of_lt mW1 (by decide) (by decide)]
      norm_num [viewKeeps, projectToView, intersect_plane_line, calculate_plane_d,
        vector3_equals, floatEquals, viewX, viewY, viewZ, origin, mW1, mW2, refineSteps])
    origin (by norm_num [mW2])
  exact ⟨h.1, h.2 0 (by decide)⟩

/-- C2: when the cursor has reached (or passed) the number of views, a
carving step returns `false` and leaves the entire engine state unchanged;
since the state is unchanged, repeated calls keep returning `false` and
never mutate `vertices`. -/
theorem claim2 (m : Model) (h : m.views.length ≤ m.next_view) :
    next_refinement_step m = Except.ok (m, false) :=
  next_refinement_step_of_ge m h

/-- C2 (witness). -/
theorem claim2_witness : next_refinement_step mTerm = Except.ok (mTerm, false) :=
  claim2 mTerm (by decide)

/-- C3: along any run of carving-step calls that raises no exception, the
cloud size after `k + 1` calls is at most the size after `k` calls: a step
only removes points from `vertices`, never inserts any. -/
theorem claim3 (m : Model) (k : ℕ) (m1 m2 : Model)
    (h1 : callRefine k m = some m1) (h2 : callRefine (k + 1) m = some m2) :
    m2.vertices.length ≤ m1.vertices.length := by
  rw [callRefine_succ, h1] at h2
  simp only [Option.some_bind] at h2
  cases hstep : next_refinement_step m1 with
  | error e =>
    rw [hstep] at h2
    simp at h2
  | ok p =>
    obtain ⟨m2x, b⟩ := p
    rw [hstep] at h2
    simp only [Option.some.injEq] at h2
    rw [← h2]
    exact step_length_le m1 m2x b hstep

/-- C3 (witness). -/
theorem claim3_witness : mW2.vertices.length ≤ mW1.vertices.length :=
  claim3 mW1 0 mW1 mW2 rfl
    (by
      have h1 : callRefine 1 mW1 = (match next_refinement_step mW1 with
        | Except.ok (mx, _) => callRefine 0 mx
        | Except.error _ => none) := rfl
      rw [h1, next_refinement_step_of_lt mW1 (by decide) (by decide)]
      dsimp only
      norm_num [viewKeeps, projectToView, intersect_plane_line, calculate_plane_d,
        vector3_equals, floatEquals, viewX, viewY, viewZ, origin, mW1, mW2, callRefine])

/-- C4: if the cross product of the first two views' optical axes is the
zero vector, seeding is a no-op: the state is returned unchanged, so a
fresh engine keeps `vertices = []` and `next_view = 0`. -/
theorem claim4 (m : Model) (v0 v1 : View) (rest : List View)
    (hv : m.views = v0 :: v1 :: rest)
    (hc : vector3_cross_product v0.vy v1.vy = Vec3.zero)
    (hvert : m.vertices = []) (hnv : m.next_view = 0) :
    initial_reconstruction m = Except.ok m :=
  initial_reconstruction_of_cross_zero m v0 v1 rest hv hc

/-- C4 (witness): two identical optical axes. -/
theorem claim4_witness : initial_reconstruction mPar = Except.ok mPar :=
  claim4 mPar viewX viewX [] rfl
    (by norm_num [vector3_cross_product, Vec3.zero, viewX, Vec3.mk.injEq]) rfl rfl

/-- C5: after a successful seed from a fresh engine, a point `q` is in the
cloud iff some boundary-vertex pair `(p0, p1)` of the first two views
produced it: the least-squares solution `(t, s)` of the two-ray system
gives `q0 = p0 + t·d0` and `q1 = p1 + s·d1`, the pair is accepted iff
`np.allclose q0 q1` holds, and then exactly `q0` is inserted. -/
theorem claim5 (m : Model) (v0 v1 : View) (rest : List View) (m1 : Model)
    (hv : m.views = v0 :: v1 :: rest)
    (hinit : m.vertices = [])
    (hcross : vector3_cross_product v0.vy v1.vy ≠ Vec3.zero)
    (hseed : initial_reconstruction m = Except.ok m1) :
    ∀ q, (q ∈ m1.vertices) ↔
      (∃ p0, p0 ∈ v0.vertices ∧ ∃ p1, p1 ∈ v1.vertices ∧
        (allclose (Vec3.add p0 (Vec3.smul (lstsq2 v0.vy v1.vy (Vec3.sub p1 p0)).1 v0.vy))
            (Vec3.add p1 (Vec3.smul (lstsq2 v0.vy v1.vy (Vec3.sub p1 p0)).2 v1.vy)) = true ∧
          q = Vec3.add p0 (Vec3.smul (lstsq2 v0.vy v1.vy (Vec3.sub p1 p0)).1 v0.vy))) := by
  rw [initial_reconstruction_of_cross_ne m v0 v1 rest hv hcross] at hseed
  have hm1 := (Except.ok.injEq _ _).mp hseed
  intro q
  have hmem : (q ∈ m1.vertices) ↔ (q ∈ seedVertices v0 v1 m.vertices) := by
    rw [← hm1]
  rw [hmem, mem_seedVertices, hinit]
  simp only [List.not_mem_nil, or_false]
  constructor
  · rintro ⟨p0, hp0, p1, hp1, htri⟩
    exact ⟨p0, hp0, p1, hp1, (triangulate_eq_some_iff _ _ _ _ _).mp htri⟩
  · rintro ⟨p0, hp0, p1, hp1, hcl⟩
    exact ⟨p0, hp0, p1, hp1, (triangulate_eq_some_iff _ _ _ _ _).mpr hcl⟩

/-- C5 (witness): on `mW` the pair `(origin, origin)` is accepted and its
triangulated point is in the seeded cloud. -/
theorem claim5_witness : origin ∈ mW1.vertices := by
  have h := claim5 mW viewX viewY [viewZ] mW1 rfl rfl
    (by norm_num [vector3_cross_product, Vec3.zero, viewX, viewY, Vec3.mk.injEq])
    (by
      rw [initial_reconstruction_of_cross_ne mW viewX viewY [viewZ] rfl
        (by norm_num [vector3_cross_product, Vec3.zero, viewX, viewY, Vec3.mk.injEq])]
      norm_num [seedVertices, triangulate, lstsq2, Vec3.dot, Vec3.sub, Vec3.add, Vec3.smul,
        allclose, allclose1, viewX, viewY, origin, mW, mW1])
    origin
  refine h.mpr ⟨origin, by norm_num [viewX], origin, by norm_num [viewY], ?_, ?_⟩
  · norm_num [lstsq2, Vec3.dot, Vec3.sub, Vec3.add, Vec3.smul, allclose, allclose1,
      viewX, viewY, origin]
  · norm_num [lstsq2, Vec3.dot, Vec3.sub, Vec3.add, Vec3.smul, viewX, viewY, origin,
      Vec3.mk.injEq]

/-- C6: for the parallel rays `L0(t) = (0,0,0) + t·(0,1,0)` and
`L1(s) = (1,1,0) + s·(0,1,0)`, the least-squares solve still returns a
solution (the minimum-norm one, `(1/2, -1/2)`) without error; the closest
points are `(0,1/2,0)` and `(1,1/2,0)`, which stay at distance 1 apart
(their difference is `(1,0,0)`), `np.allclose` rejects them, and no point
is produced for the pair. -/
theorem claim6 :
    lstsq2 ⟨0, 1, 0⟩ ⟨0, 1, 0⟩ (Vec3.sub ⟨1, 1, 0⟩ ⟨0, 0, 0⟩) = (1/2, -1/2) ∧
    Vec3.add ⟨0, 0, 0⟩ (Vec3.smul (1/2) ⟨0, 1, 0⟩) = (⟨0, 1/2, 0⟩ : Vec3) ∧
    Vec3.add ⟨1, 1, 0⟩ (Vec3.smul (-1/2) ⟨0, 1, 0⟩) = (⟨1, 1/2, 0⟩ : Vec3) ∧
    allclose ⟨0, 1/2, 0⟩ ⟨1, 1/2, 0⟩ = false ∧
    Vec3.sub ⟨1, 1/2, 0⟩ ⟨0, 1/2, 0⟩ = (⟨1, 0, 0⟩ : Vec3) ∧
    triangulate ⟨0, 1, 0⟩ ⟨0, 1, 0⟩ ⟨0, 0, 0⟩ ⟨1, 1, 0⟩ = none := by
  norm_num [triangulate, lstsq2, Vec3.dot, Vec3.sub, Vec3.add, Vec3.smul,
    allclose, allclose1, Vec3.mk.injEq]

/-- C7: with fewer than two views, `initial_reconstruction` performs the
unchecked `views[1]` access and the engine fails with an out-of-range
`IndexError` propagating to the caller — there is no explicit
precondition check that would signal a distinct fatal precondition
error. -/
theorem claim7 :
    mOne.views.length = 1 ∧
    initial_reconstruction mOne = Except.error Err.indexError :=
  ⟨rfl, rfl⟩

/-- C8 (counterexample): an engine with `next_view < len(views)` on which
the carving step does not perform the keep-exactly-the-visible-points
update and does not return `true`: the filter view's silhouette is empty,
so the step raises `IndexError` instead (even though the cloud holds a
point). -/
theorem claim8_cex :
    mC8.next_view < mC8.views.length ∧
    mC8.vertices = [origin] ∧
    next_refinement_step mC8 = Except.error Err.indexError :=
  ⟨by decide, rfl, rfl⟩

/-- C8 (amended): when `next_view < len(views)` *and the filter view's
silhouette boundary is non-empty*, one carving step keeps exactly the
points of `vertices` whose projection onto that view's plane equals
(under `Vector3Equals`) some silhouette vertex — the full scan marks the
others and they are removed in a batch afterwards, which amounts to
filtering — then increments `next_view` by exactly 1 and returns `true`. -/
theorem claim8 (m : Model) (h : m.next_view < m.views.length)
    (hne : (m.views.getD m.next_view default).vertices ≠ []) :
    next_refinement_step m = Except.ok
      (({ m with
          vertices := m.vertices.filter (viewKeeps (m.views.getD m.next_view default)),
          next_view := m.next_view + 1 }), true) :=
  next_refinement_step_of_lt m h hne

/-- C8 (witness). -/
theorem claim8_witness : next_refinement_step mW1 = Except.ok
    (({ mW1 with
        vertices := mW1.vertices.filter (viewKeeps (mW1.views.getD mW1.next_view default)),
        next_view := mW1.next_view + 1 }), true) :=
  claim8 mW1 (by decide) (by decide)

/-- C9 (counterexample): a successful seed that accepts no pair leaves the
cloud empty, but the next carving step is *not* a non-error no-op: view 2
has an empty silhouette, so the step raises `IndexError` instead of
returning `true`, even on the empty point set. -/
theorem claim9_cex :
    initial_reconstruction mC9 = Except.ok mC9S ∧
    mC9S.vertices = [] ∧
    mC9S.next_view < mC9S.views.length ∧
    next_refinement_step mC9S = Except.error Err.indexError := by
  refine ⟨?_, rfl, by decide, rfl⟩
  rw [initial_reconstruction_of_cross_ne mC9 viewX v1far [vEmptySil] rfl
    (by norm_num [vector3_cross_product, Vec3.zero, viewX, v1far, Vec3.mk.injEq])]
  norm_num [seedVertices, triangulate, lstsq2, Vec3.dot, Vec3.sub, Vec3.add, Vec3.smul,
    allclose, allclose1, viewX, v1far, origin, mC9, mC9S]

/-- C9 (amended): from a state with an empty cloud, as long as views remain
*and every remaining filter view has a non-empty silhouette boundary*,
carving steps are non-error no-ops on `vertices` (nothing to remove), still
increment the cursor by 1 each, and return `true`; `refineSteps` only
proceeds through `true` returns, so all `k` steps here returned `true`. -/
theorem claim9 (m : Model) (k : ℕ)
    (hvert : m.vertices = [])
    (hk : m.next_view + k ≤ m.views.length)
    (hsil : ∀ i, i < k → (m.views.getD (m.next_view + i) default).vertices ≠ []) :
    refineSteps k m = some ({ m with next_view := m.next_view + k }) := by
  induction k generalizing m with
  | zero => rfl
  | succ k ih =>
    have hlt : m.next_view < m.views.length := by omega
    have hne : (m.views.getD (m.next_view) default).vertices ≠ [] := by
      have := hsil 0 (by omega)
      simpa using this
    rw [refineSteps, next_refinement_step_of_lt m hlt hne]
    dsimp only
    have hfil : m.vertices.filter (viewKeeps (m.views.getD m.next_view default)) = [] := by
      rw [hvert]
      rfl
    rw [hfil]
    have hstep := ih ({ m with vertices := [], next_view := m.next_view + 1 })
      rfl (by dsimp only; omega)
      (by
        intro i hi
        dsimp only
        have harith : m.next_view + 1 + i = m.next_view + (i + 1) := by omega
        rw [harith]
        exact hsil (i + 1) (by omega))
    rw [hstep]
    have harith2 : m.next_view + 1 + k = m.next_view + (k + 1) := by omega
    rw [← hvert, harith2]

/-- C9 (witness). -/
theorem claim9_witness :
    refineSteps 1 mEmptyCloud = some ({ mEmptyCloud with
      next_view := mEmptyCloud.next_view + 1 }) :=
  claim9 mEmptyCloud 1 rfl (by decide) (by decide)

/-- C10: a non-terminal carving step reads `views[next_view].vertices[0]`
before examining the candidate cloud, so whenever the filter view's
silhouette boundary is empty the step fails with an out-of-range
`IndexError` — no matter what the cloud holds, in particular even when it
is empty. -/
theorem claim10 (m : Model) (h : m.next_view < m.views.length)
    (he : (m.views.getD m.next_view default).vertices = []) :
    next_refinement_step m = Except.error Err.indexError :=
  next_refinement_step_of_empty_sil m h he

/-- C10 (witness): empty silhouette, empty candidate cloud. -/
theorem claim10_witness : next_refinement_step mC10 = Except.error Err.indexError :=
  claim10 mC10 (by decide) rfl
